import Mathlib

/-!
# Verification of `process-otu-data.py`

A shallow embedding of the OTU-abundance processing pipeline:
contamination pruning, proportion normalization, and taxonomic name
resolution against a remote taxonomy service (modelled by oracles).

Integer read counts are modelled as `ℕ`; real arithmetic on ratios and
proportions is modelled in `ℚ` (Python float division of two ints).
Python's `ZeroDivisionError` on `int / 0` is modelled by `Except Unit`.
The network is modelled by oracle functions and, for the retry loop of
`otl_taxon`, a finite list of per-attempt outcomes.
-/

namespace ProcessOTU



/-- `PRUNING_VALUE = 1.5`, the adjustable pruning threshold constant. -/
def PRUNING_VALUE : ℚ := 3 / 2

/-- One row of the pruning loop (`process_data`, lines 222-228):
`if controls[i] and data[i][j] / controls[i] <= PRUNING_VALUE:` set the
cell to `0`, `else` keep the raw count.  Python truthiness of an int is
"nonzero"; the short-circuit `and` means the division is only taken when
the control is nonzero. -/
def pruneRow (control : ℕ) (threshold : ℚ) (row : List ℕ) : List ℕ :=
  row.map (fun (c : ℕ) => if control ≠ 0 ∧ (c : ℚ) / (control : ℚ) ≤ threshold then 0 else c)

/-- The pruning stage over the whole matrix: row `i` is pruned against
`controls[i]`. -/
def prune (data : List (List ℕ)) (controls : List ℕ) (threshold : ℚ) : List (List ℕ) :=
  (data.zip controls).map (fun p => pruneRow p.2 threshold p.1)

/-- The number of tuples produced by Python's `zip(*m)`: the minimum row
length (0 for an empty matrix). -/
def zipWidth (m : List (List ℕ)) : ℕ :=
  match m with
  | [] => 0
  | r :: rs => (rs.map List.length).foldl min r.length

/-- `sums[j]`: the sum of column `j` of the pruned matrix
(`sums = [sum(i) for i in list(zip(*data_processed))]`, line 231). -/
def colSum (m : List (List ℕ)) (j : ℕ) : ℕ :=
  (m.map (fun row => row.getD j 0)).sum

/-- Python's `a / b` on ints: raises `ZeroDivisionError` when `b = 0`,
otherwise exact rational division. -/
def divE (a b : ℕ) : Except Unit ℚ :=
  if b = 0 then .error () else .ok ((a : ℚ) / (b : ℚ))

/-- Sequential effectful map over a list, stopping at the first error
(the evaluation order of Python's nested `for` loops). -/
def mapE (f : α → Except Unit β) : List α → Except Unit (List β)
  | [] => .ok []
  | a :: l =>
    match f a with
    | .error e => .error e
    | .ok b =>
      match mapE f l with
      | .error e => .error e
      | .ok bs => .ok (b :: bs)

/-- The normalization of one row (`process_data`, lines 234-236):
`data_processed[i][j] = data_processed[i][j] / sums[j]`. -/
def normRow (sums : List ℕ) (row : List ℕ) : Except Unit (List ℚ) :=
  mapE (fun p => divE p.1 p.2) (row.zip sums)

/-- The numeric half of `process_data` (lines 221-236): prune, take
per-column sums of the pruned counts, then divide every cell by its
column sum. -/
def process_numeric (data : List (List ℕ)) (controls : List ℕ) (threshold : ℚ) :
    Except Unit (List (List ℚ)) :=
  let pruned := prune data controls threshold
  let sums := (List.range (zipWidth pruned)).map (fun j => colSum pruned j)
  mapE (normRow sums) pruned

/-- One entry of a `taxon_info` response's `lineage` list. -/
structure LineageEntry where
  rank : String
  name : String
  ott_id : ℕ
  tax_sources : List (String × String)

/-- The body of a 200 `taxonomy/taxon_info` response. -/
structure TaxonInfo where
  lineage : List LineageEntry
  rank : String
  name : String
  unique_name : String
  tax_sources : List (String × String)

/-- `list2dict(taxlist)[key]`, with `KeyError` as `none`.  A Python dict
comprehension keeps the last occurrence of a duplicated key. -/
def list2dictGet (taxlist : List (String × String)) (key : String) : Option String :=
  ((taxlist.filter (fun p => p.1 = key)).getLast?).map (fun p => p.2)

/-- Python's `str.split()` with no separator: split on whitespace runs,
discarding empty pieces. -/
def pySplit (s : String) : List String :=
  ((s.data.foldr
      (fun c acc =>
        if c.isWhitespace then [] :: acc
        else
          match acc with
          | [] => [[c]]
          | t :: ts => (c :: t) :: ts)
      ([[]] : List (List Char))).map (fun l => String.mk l)).filter (fun t => t ≠ "")

/-- The value stored under `tax_cg_ott_id`: either the float `nan` used by
the script as an "undefined" marker, or a genus OTT id. -/
inductive CgId where
  | nan : CgId
  | ott : ℕ → CgId
deriving DecidableEq

/-- The dictionary built by `taxonomy_OTT` (lines 94-148), with `Option`
for keys that may be absent.  `ranks r` models the `'tax_' + r` entries
derived from the lineage (after the removals the function performs). -/
structure TaxDict where
  ranks : String → Option String
  tax_higher_source : String
  rank : String
  tax_ott_id : ℕ
  tax_ott_accepted_name : String
  tax_ncbi_id : Option String
  tax_cg_ott_id : Option CgId
  cg : Option String
  tax_cg_ncbi_id : Option String
  tax_cs_ott_id : Option ℕ

/-- The rank→name dictionary comprehension of line 98: for duplicate ranks
the last lineage entry wins. -/
def rankMap (lineage : List LineageEntry) (r : String) : Option String :=
  ((lineage.filter (fun e => e.rank = r)).getLast?).map (fun e => e.name)

/-- `taxonomy_OTT` (lines 94-148) applied to a successful `taxon_info`
response body.  Python would raise `IndexError` at line 123 on an empty
`unique_name`; that cell is modelled with default `""` and the claims about
it assume a response with a nonempty unique name. -/
def taxonomy_OTT (ott_id : ℕ) (res : TaxonInfo) : TaxDict :=
  let inSS := res.rank = "species" ∨ res.rank = "subspecies"
  let genusFirst := (res.lineage.filter (fun e => e.rank = "genus")).head?
  { ranks := fun r =>
      if r = "no rank" then none
      else if r = "species" then none
      else if r = "genus" ∧ inSS ∧ genusFirst.isSome then none
      else rankMap res.lineage r
    tax_higher_source := "OTT"
    rank := res.rank
    tax_ott_id := ott_id
    tax_ott_accepted_name := res.name
    tax_ncbi_id := list2dictGet res.tax_sources "ncbi"
    tax_cg_ott_id :=
      if inSS then
        match genusFirst with
        | some g => some (.ott g.ott_id)
        | none => some .nan
      else none
    cg :=
      if inSS then
        match genusFirst with
        | some _ => rankMap res.lineage "genus"
        | none =>
          if res.rank = "species" ∨ res.rank = "subspecies" then
            some ((pySplit res.unique_name).headD "")
          else none
      else
        if res.rank = "genus" ∨ res.rank = "subgenus" then none else some ""
    tax_cg_ncbi_id :=
      if inSS then genusFirst.bind (fun g => list2dictGet g.tax_sources "ncbi")
      else none
    tax_cs_ott_id :=
      ((res.lineage.filter (fun e => e.rank = "species")).head?).map (fun e => e.ott_id) }

/-- Outcome of one HTTP attempt: a connection/TLS failure (caught and
retried) or a response with a status code, a body (read on 200) and a
`message` field (read on 400). -/
inductive TaxonNet where
  | connFail : TaxonNet
  | resp (status : ℕ) (body : TaxonInfo) (message : String) : TaxonNet

/-- `otl_taxon`: retry until a response arrives; on 200 return it, on 400
write the message and `'skipping'` to the diagnostic stream and return
`None`, on anything else log and retry. -/
def otl_taxon (events : List TaxonNet) (log : List String) :
    Option (Option TaxonInfo × List String) :=
  match events with
  | [] => none
  | e :: rest =>
    match e with
    | .connFail =>
      otl_taxon rest (log ++ ["error connecting to Open Tree of Life, retrying"])
    | .resp s body msg =>
      if s = 200 then some (some body, log)
      else if s = 400 then some (none, log ++ [msg, "skipping"])
      else otl_taxon rest (log ++ ["error contacting Open Tree of Life, retrying"])

/-- `taxonomy_OTT` as called at line 95 with the network in the loop:
when `otl_taxon` returns `None` (HTTP 400), line 98 evaluates
`res.json()` on `None` and raises `AttributeError`, modelled as
`.error`. -/
def taxonomy_OTT_net (ott_id : ℕ) (events : List TaxonNet) :
    Option (Except String TaxDict × List String) :=
  match otl_taxon events [] with
  | none => none
  | some (none, log) => some (.error "AttributeError: NoneType has no attribute json", log)
  | some (some body, log) => some (.ok (taxonomy_OTT ott_id body), log)

/-- The taxon record inside a tnrs match candidate. -/
structure MatchTaxon where
  name : String
  ott_id : ℕ
  rank : String
  tax_sources : List (String × String)

/-- One element of a tnrs `matches` list. -/
structure TnrsMatch where
  taxon : MatchTaxon

/-- One element of a tnrs `results` list; `matchList` models its
`'matches'` field (`matches` is a Lean keyword). -/
structure TnrsResult where
  matchList : List TnrsMatch

/-- The body of a 200 `tnrs/match_names` response. -/
structure TnrsBody where
  results : List TnrsResult

/-- The value `otl_checkname` returns: Python `None` (empty `results`, or a
match at an unacceptable rank), the empty dict `{ }` (zero matches), or the
populated dictionary. -/
inductive CheckResult where
  | pyNone : CheckResult
  | emptyDict : CheckResult
  | found (current_name : String) (id : ℕ) (level : String) (ncbi_id : Option String)
      (higher_taxonomy : TaxDict) : CheckResult

/-- Python truthiness of the `otl_checkname` value: `None` and `{ }` are
falsy, a populated dict is truthy. -/
def CheckResult.falsy : CheckResult → Bool
  | .pyNone => true
  | .emptyDict => true
  | .found _ _ _ _ _ => false

/-- `otl_checkname` over oracles for the two endpoints (`tnrsOf` the
match response per query, `infoOf` the `taxon_info` body per OTT id,
assuming those detail lookups succeed).  Returns the result value
together with the warnings written for this query. -/
def otl_checkname (tnrsOf : String → TnrsBody) (infoOf : ℕ → TaxonInfo) (query : String) :
    CheckResult × List String :=
  match (tnrsOf query).results with
  | [] => (.pyNone, [])
  | r0 :: _ =>
    match r0.matchList with
    | [] => (.emptyDict, [])
    | m0 :: _ =>
      let t := m0.taxon
      let higher := taxonomy_OTT t.ott_id (infoOf t.ott_id)
      if t.rank = "species" then
        (.found t.name t.ott_id "species" (list2dictGet t.tax_sources "ncbi") higher, [])
      else if t.rank = "genus" then
        (.found t.name t.ott_id "genus" none higher, [])
      else
        (.pyNone, [query ++ ": found in ott, but not as genus or species"])

/-- Python's `s.rsplit(' ', 1)` on the character list when `' ' in s`:
split at the last space character, returning the part before it and the
part after it.  `none` when there is no space. -/
def rsplitSpaceAux : List Char → Option (List Char × List Char)
  | [] => none
  | c :: cs =>
    match rsplitSpaceAux cs with
    | some (b, a) => some (c :: b, a)
    | none => if c = ' ' then some ([], cs) else none

/-- `rsplit(' ', 1)` on a string. -/
def rsplitSpace (s : String) : Option (String × String) :=
  (rsplitSpaceAux s.data).map (fun p => (String.mk p.1, String.mk p.2))

/-- Python's `' ' in s`. -/
def hasSpace (s : String) : Bool := s.data.contains ' '

/-- The progressive-shortening loop of `process_data` (lines 240-247): the
state is `name`, a list whose head is the remaining query and whose tail
holds the stripped trailing pieces; `check` is `otl_checkname` (its result
value).  `while not taxa and ' ' in name[0]: name = name[0].rsplit(' ', 1)
+ name[1:]; taxa = otl_checkname(name[0])`.  Returns the final `taxa`, the
final `name[0]`, the final `name[1:]`, and the number of executed loop
iterations. -/
def resolveLoop (check : String → CheckResult) (name0 : String) (rest : List String) :
    CheckResult × String × List String × ℕ :=
  let taxa := check name0
  if taxa.falsy ∧ hasSpace name0 then
    match hsp : rsplitSpace name0 with
    | some (b, a) =>
      let r := resolveLoop check b (a :: rest)
      (r.1, r.2.1, r.2.2.1, r.2.2.2 + 1)
    | none => (taxa, name0, rest, 0)
  else (taxa, name0, rest, 0)
termination_by name0.length
decreasing_by
  have key : ∀ (l b a : List Char),
      rsplitSpaceAux l = some (b, a) → b.length + a.length + 1 = l.length := by
    intro l
    induction l with
    | nil => intro b a h; cases h
    | cons c cs ih =>
      intro b a h
      simp only [rsplitSpaceAux] at h
      cases hrec : rsplitSpaceAux cs with
      | some p =>
        rw [hrec] at h
        cases h
        have := ih p.1 p.2 (by rw [hrec])
        simp only [List.length_cons]
        omega
      | none =>
        rw [hrec] at h
        by_cases hc : c = ' '
        · rw [if_pos hc] at h
          cases h
          simp
        · rw [if_neg hc] at h
          cases h
  simp only [rsplitSpace, Option.map_eq_some'] at hsp
  obtain ⟨p, hp, heq⟩ := hsp
  have := key name0.data p.1 p.2 hp
  cases heq
  simp only [String.length, String.mk]
  omega

/-- The six lineage keys read at line 250 (`'tax_' + r` with these ranks). -/
def SIX_RANKS : List String := ["domain", "kingdom", "phylum", "class", "order", "family"]

/-- Python's `' '.join(l)`. -/
def pyJoin : List String → String
  | [] => ""
  | [s] => s
  | s :: rest => s ++ " " ++ pyJoin rest

/-- The taxonomy row built for one OTU label (lines 239-262): resolve the
label through the shortening loop; on success take the six lineage fields
(`'-'` for a missing key) and the current name with the stripped remainder
re-appended (`if len(name) > 1: ... += ' ' + ' '.join(name[1:])`); on
failure six `'-'` placeholders and the original label. -/
def speciesRow (check : String → CheckResult) (sp : String) : List String :=
  match resolveLoop check sp [] with
  | (taxa, _, rest, _) =>
    match taxa with
    | .found current_name _ _ _ higher =>
      (SIX_RANKS.map (fun key => (higher.ranks key).getD "-")) ++
        [if rest.isEmpty then current_name
         else current_name ++ " " ++ pyJoin rest]
    | _ => ["-", "-", "-", "-", "-", "-", sp]

/-- Concrete tnrs oracle: no results for any query. -/
def emptyTnrs : String → TnrsBody := fun _ => ⟨[]⟩

/-- Concrete tnrs oracle: a genus-rank match for `"Genus"`, no results
otherwise. -/
def tnrsGenusOnly : String → TnrsBody := fun q =>
  if q = "Genus" then ⟨[⟨[⟨⟨"Genusname", 42, "genus", []⟩⟩]⟩]⟩ else ⟨[]⟩

/-- Concrete `taxon_info` oracle: a genus-rank detail body with an empty
lineage. -/
def infoOracle : ℕ → TaxonInfo := fun _ => ⟨[], "genus", "Genusname", "Genusname", []⟩

/-- Concrete tnrs oracle for the rank-mismatch scenario: the full label
`"alpha beta"` matches only at family rank, the shortened `"alpha"` at
genus rank. -/
def tnrsC5 : String → TnrsBody := fun q =>
  if q = "alpha beta" then ⟨[⟨[⟨⟨"Betaceae", 7, "family", []⟩⟩]⟩]⟩
  else if q = "alpha" then ⟨[⟨[⟨⟨"Alphagenus", 3, "genus", []⟩⟩]⟩]⟩
  else ⟨[]⟩

/-- Concrete tnrs oracle: a family-rank match for the single-token query
`"betaceae"`, no results otherwise. -/
def tnrsFamilyOnly : String → TnrsBody := fun q =>
  if q = "betaceae" then ⟨[⟨[⟨⟨"Betaceae", 7, "family", []⟩⟩]⟩]⟩ else ⟨[]⟩

/-- A concrete `taxon_info` body at species rank whose lineage has no
genus-rank ancestor. -/
def infoNoGenus : TaxonInfo :=
  ⟨[⟨"family", "Hominidae", 99, []⟩], "species", "Homo sapiens", "Homo sapiens", []⟩

/-- The experimental-column selection of `read_data` (line 211):
`[int(row[i]) for i in range(1, len(row)) if i != control_col]`. -/
def selectRow (row : List ℕ) (control_col : ℕ) : List ℕ :=
  (((List.range row.length).drop 1).filter (fun i => i ≠ control_col)).map
    (fun i => row.getD i 0)

/-- Python's elementwise list `<` via an element `<` and `=`. -/
def listLtB (lt : α → α → Bool) (eq : α → α → Bool) : List α → List α → Bool
  | _, [] => false
  | [], _ :: _ => true
  | a :: as, b :: bs => if lt a b then true else if eq a b then listLtB lt eq as bs else false

/-- Python's `<` on a combined output row (string fields, then numeric
fields; the string parts always have equal length 7, so the comparison
never reaches a string-versus-float pair). -/
def rowLt (a b : List String × List ℚ) : Bool :=
  if a.1 = b.1 then listLtB (fun x y => decide (x < y)) (fun x y => decide (x = y)) a.2 b.2
  else listLtB (fun x y => decide (x < y)) (fun x y => decide (x = y)) a.1 b.1

/-- The `≤` used to model `combined.sort()`. -/
def rowLe (a b : List String × List ℚ) : Bool := !(rowLt b a)

/-- `write_data`'s row combination and sort (lines 273-274): `combined =
[species[i] + data[i] for i ...]; combined.sort()`.  A combined row is the
pair of its string half and its numeric half. -/
def write_rows (species : List (List String)) (data : List (List ℚ)) :
    List (List String × List ℚ) :=
  (species.zip data).mergeSort rowLe

/-! ## Theorems -/

theorem prune_getD (data : List (List ℕ)) (controls : List ℕ) (t : ℚ) (i : ℕ)
    (hlen : controls.length = data.length) (hi : i < data.length) :
    (prune data controls t).getD i [] = pruneRow (controls.getD i 0) t (data.getD i []) := by
  have hz : i < (prune data controls t).length := by
    simp [prune, List.length_zip, hlen, hi]
  rw [List.getD_eq_getElem _ _ hz]
  simp only [prune, List.getElem_map, List.getElem_zip]
  rw [List.getD_eq_getElem data [] hi, List.getD_eq_getElem controls 0 (hlen ▸ hi)]

theorem pruneRow_zero (t : ℚ) (row : List ℕ) : pruneRow 0 t row = row := by
  simp [pruneRow]

theorem pruneRow_length (c : ℕ) (t : ℚ) (row : List ℕ) :
    (pruneRow c t row).length = row.length := by
  simp [pruneRow]

theorem pruneRow_getD (c : ℕ) (t : ℚ) (row : List ℕ) (j : ℕ) :
    (pruneRow c t row).getD j 0 =
      if c ≠ 0 ∧ ((row.getD j 0 : ℕ) : ℚ) / (c : ℚ) ≤ t then 0 else row.getD j 0 := by
  by_cases hj : j < row.length
  · rw [List.getD_eq_getElem _ _ (by simpa [pruneRow_length] using hj),
      List.getD_eq_getElem _ _ hj]
    simp [pruneRow]
  · rw [List.getD_eq_default _ _ (by simpa [pruneRow_length] using Nat.le_of_not_lt hj),
      List.getD_eq_default _ _ (Nat.le_of_not_lt hj)]
    simp

theorem mapE_ok_forall₂ {f : α → Except Unit β} :
    ∀ {l : List α} {bs : List β}, mapE f l = .ok bs →
      List.Forall₂ (fun a b => f a = .ok b) l bs := by
  intro l
  induction l with
  | nil =>
    intro bs h
    simp only [mapE] at h
    cases h
    exact List.Forall₂.nil
  | cons a l ih =>
    intro bs h
    simp only [mapE] at h
    cases hfa : f a with
    | error e => rw [hfa] at h; cases h
    | ok b =>
      rw [hfa] at h
      cases hrec : mapE f l with
      | error e => rw [hrec] at h; cases h
      | ok bs' =>
        rw [hrec] at h
        cases h
        exact List.Forall₂.cons hfa (ih hrec)

theorem forall₂_exists_left {R : α → β → Prop} :
    ∀ {l₁ : List α} {l₂ : List β}, List.Forall₂ R l₁ l₂ → ∀ b ∈ l₂, ∃ a ∈ l₁, R a b := by
  intro l₁ l₂ h
  induction h with
  | nil => intro b hb; cases hb
  | cons hr _ ih =>
    intro b hb
    rcases List.mem_cons.mp hb with rfl | hb
    · exact ⟨_, List.mem_cons_self _ _, hr⟩
    · rcases ih b hb with ⟨a, ha, har⟩
      exact ⟨a, List.mem_cons_of_mem _ ha, har⟩

theorem normRow_ok_getD {sums row : List ℕ} {q : List ℚ}
    (h : normRow sums row = .ok q) {j : ℕ} (hj : j < row.length) (hjs : j < sums.length) :
    sums.getD j 0 ≠ 0 ∧
      q.getD j 0 = ((row.getD j 0 : ℕ) : ℚ) / ((sums.getD j 0 : ℕ) : ℚ) := by
  have hf := mapE_ok_forall₂ h
  rw [List.forall₂_iff_get] at hf
  obtain ⟨hlen, hget⟩ := hf
  have hjz : j < (row.zip sums).length := by
    simp [List.length_zip]; omega
  have hq : j < q.length := by omega
  have := hget j hjz hq
  simp only [List.get_eq_getElem, List.getElem_zip] at this
  rw [divE] at this
  by_cases hz : sums[j] = 0
  · rw [if_pos hz] at this; cases this
  · rw [if_neg hz] at this
    have h3 : ((row[j] : ℕ) : ℚ) / ((sums[j] : ℕ) : ℚ) = q[j] := by
      injection this
    refine ⟨by rwa [List.getD_eq_getElem _ _ hjs], ?_⟩
    rw [List.getD_eq_getElem _ _ hq, List.getD_eq_getElem _ _ hj, List.getD_eq_getElem _ _ hjs]
    exact h3.symm

theorem prune_row_length {data : List (List ℕ)} {controls : List ℕ} {t : ℚ} {w : ℕ}
    (hw : ∀ r ∈ data, r.length = w) :
    ∀ r ∈ prune data controls t, r.length = w := by
  intro r hr
  simp only [prune, List.mem_map] at hr
  obtain ⟨p, hp, rfl⟩ := hr
  rw [pruneRow_length]
  exact hw p.1 (List.of_mem_zip hp).1

theorem foldl_min_const {w : ℕ} :
    ∀ l : List ℕ, (∀ x ∈ l, x = w) → l.foldl min w = w := by
  intro l
  induction l with
  | nil => intro _; rfl
  | cons a as ih =>
    intro h
    simp only [List.foldl_cons]
    rw [h a (List.mem_cons_self _ _), min_self]
    exact ih fun x hx => h x (List.mem_cons_of_mem _ hx)

theorem zipWidth_eq {m : List (List ℕ)} {w : ℕ} (hne : m ≠ [])
    (hw : ∀ r ∈ m, r.length = w) : zipWidth m = w := by
  cases m with
  | nil => exact absurd rfl hne
  | cons r rs =>
    simp only [zipWidth]
    rw [hw r (List.mem_cons_self _ _)]
    apply foldl_min_const
    intro x hx
    simp only [List.mem_map] at hx
    obtain ⟨a, ha, rfl⟩ := hx
    exact hw a (List.mem_cons_of_mem _ ha)

theorem colvals {sums : List ℕ} {w j : ℕ} (hj : j < w) (hjs : j < sums.length) :
    ∀ {l : List (List ℕ)} {out : List (List ℚ)},
      List.Forall₂ (fun r q => normRow sums r = .ok q) l out →
      (∀ r ∈ l, r.length = w) →
      out.map (fun q => q.getD j 0) =
        l.map (fun r => ((r.getD j 0 : ℕ) : ℚ) / ((sums.getD j 0 : ℕ) : ℚ)) := by
  intro l out hf
  induction hf with
  | nil => intro _; rfl
  | cons hr hrest ih =>
    intro hw
    simp only [List.map_cons]
    rw [ih fun r h => hw r (List.mem_cons_of_mem _ h)]
    congr 1
    exact (normRow_ok_getD hr (by rw [hw _ (List.mem_cons_self _ _)]; exact hj) hjs).2

theorem list_sum_div (s : ℚ) :
    ∀ l : List ℚ, (l.map (fun x => x / s)).sum = l.sum / s := by
  intro l
  induction l with
  | nil => simp
  | cons a as ih => simp [ih, add_div]

theorem prune_ne_nil {data : List (List ℕ)} {controls : List ℕ} {t : ℚ}
    (hlen : controls.length = data.length) (hdne : data ≠ []) :
    prune data controls t ≠ [] := by
  intro h
  apply hdne
  have : (prune data controls t).length = 0 := by rw [h]; rfl
  simp only [prune, List.length_map, List.length_zip, hlen, min_self] at this
  exact List.length_eq_zero.mp this

/-- C1: in the pruning stage, for every OTU row `i` and sample column `j`:
if `controls[i] = 0` the whole row is kept unchanged; otherwise a cell whose
ratio to the control is at most the threshold is set to `0`, and a cell whose
ratio exceeds the threshold is retained. -/
theorem C1_prune_cases (data : List (List ℕ)) (controls : List ℕ) (threshold : ℚ) (i j : ℕ)
    (hlen : controls.length = data.length) (hi : i < data.length) :
    (controls.getD i 0 = 0 → (prune data controls threshold).getD i [] = data.getD i []) ∧
    (controls.getD i 0 ≠ 0 →
      (((data.getD i []).getD j 0 : ℕ) : ℚ) / ((controls.getD i 0 : ℕ) : ℚ) ≤ threshold →
      ((prune data controls threshold).getD i []).getD j 0 = 0) ∧
    (controls.getD i 0 ≠ 0 →
      threshold < (((data.getD i []).getD j 0 : ℕ) : ℚ) / ((controls.getD i 0 : ℕ) : ℚ) →
      ((prune data controls threshold).getD i []).getD j 0 = (data.getD i []).getD j 0) := by
  rw [prune_getD data controls threshold i hlen hi]
  refine ⟨fun h0 => by rw [h0, pruneRow_zero], fun hc hle => ?_, fun hc hgt => ?_⟩
  · rw [pruneRow_getD, if_pos ⟨hc, hle⟩]
  · rw [pruneRow_getD, if_neg]
    rintro ⟨-, hle⟩
    exact absurd hgt (not_lt.mpr hle)

/-- Witness for C1: a zero control keeps its row, a low ratio is zeroed,
a high ratio is kept (counts `[[5],[1]]`, controls `[2,0]`, threshold `3/2`). -/
theorem C1_prune_cases_witness :
    (prune [[5], [1]] [2, 0] (3 / 2)).getD 1 [] = [1] ∧
    ((prune [[5], [1]] [2, 0] (3 / 2)).getD 0 []).getD 0 0 = 5 ∧
    ((prune [[1], [5]] [2, 2] (3 / 2)).getD 0 []).getD 0 0 = 0 := by
  refine ⟨(C1_prune_cases [[5], [1]] [2, 0] (3 / 2) 1 0 rfl (by decide)).1 rfl, ?_, ?_⟩
  · exact (C1_prune_cases [[5], [1]] [2, 0] (3 / 2) 0 0 rfl (by decide)).2.2
      (by decide) (by norm_num)
  · exact (C1_prune_cases [[1], [5]] [2, 2] (3 / 2) 0 0 rfl (by decide)).2.1
      (by decide) (by norm_num)

/-- C2: for every matrix, control vector, and threshold `≥ 0`, whenever the
numeric pipeline returns a result, every column whose post-prune sum is
nonzero has all its normalized values in `[0, 1]` and they sum to exactly
`1` (rational arithmetic). -/
theorem C2_column_normalization (data : List (List ℕ)) (controls : List ℕ) (threshold : ℚ)
    (w j : ℕ) (out : List (List ℚ))
    (hth : 0 ≤ threshold)
    (hw : ∀ r ∈ data, r.length = w)
    (hlen : controls.length = data.length)
    (hok : process_numeric data controls threshold = .ok out)
    (hj : j < w)
    (hcs : colSum (prune data controls threshold) j ≠ 0) :
    (∀ q ∈ out, 0 ≤ q.getD j 0 ∧ q.getD j 0 ≤ 1) ∧
    (out.map (fun q => q.getD j 0)).sum = 1 := by
  have hdne : data ≠ [] := by
    rintro rfl
    exact hcs (by simp [prune, colSum])
  have hpne : prune data controls threshold ≠ [] := prune_ne_nil hlen hdne
  have hpw : ∀ r ∈ prune data controls threshold, r.length = w :=
    prune_row_length hw
  have hzw : zipWidth (prune data controls threshold) = w := zipWidth_eq hpne hpw
  simp only [process_numeric, hzw] at hok
  set S : List ℕ := (List.range w).map (fun j => colSum (prune data controls threshold) j)
    with hS
  have hjs : j < S.length := by simp [hS]; omega
  have hsj : S.getD j 0 = colSum (prune data controls threshold) j := by
    rw [List.getD_eq_getElem _ _ hjs]
    simp [hS]
  have hf := mapE_ok_forall₂ hok
  have hcol := colvals hj hjs hf hpw
  constructor
  · intro q hq
    obtain ⟨r, hr, hrq⟩ := forall₂_exists_left hf q hq
    have hjr : j < r.length := by rw [hpw r hr]; exact hj
    have hval := (normRow_ok_getD hrq hjr hjs).2
    rw [hval, hsj]
    constructor
    · exact div_nonneg (Nat.cast_nonneg _) (Nat.cast_nonneg _)
    · rw [div_le_one (by exact_mod_cast Nat.pos_of_ne_zero hcs)]
      have hmem : r.getD j 0 ∈ (prune data controls threshold).map (fun r => r.getD j 0) :=
        List.mem_map_of_mem _ hr
      exact_mod_cast List.le_sum_of_mem hmem
  · rw [hcol]
    have h1 : (prune data controls threshold).map
        (fun r => ((r.getD j 0 : ℕ) : ℚ) / ((S.getD j 0 : ℕ) : ℚ)) =
        ((prune data controls threshold).map (fun r => ((r.getD j 0 : ℕ) : ℚ))).map
          (fun x => x / ((S.getD j 0 : ℕ) : ℚ)) := by
      rw [List.map_map]
      rfl
    rw [h1, list_sum_div]
    have h2 : (prune data controls threshold).map (fun r => ((r.getD j 0 : ℕ) : ℚ)) =
        ((prune data controls threshold).map (fun r => r.getD j 0)).map Nat.cast := by
      rw [List.map_map]
      rfl
    rw [h2, ← Nat.cast_list_sum]
    have h3 : ((prune data controls threshold).map (fun r => r.getD j 0)).sum =
        colSum (prune data controls threshold) j := rfl
    rw [h3, hsj]
    exact div_self (by exact_mod_cast hcs)

/-- Witness for C2: the spec's end-to-end example (counts `[[20],[5]]`,
controls `[10,10]`, threshold `3/2`) produces column proportions `[1, 0]`
which lie in `[0,1]` and sum to `1`. -/
theorem C2_column_normalization_witness :
    (∀ q ∈ ([[1], [0]] : List (List ℚ)), 0 ≤ q.getD 0 0 ∧ q.getD 0 0 ≤ 1) ∧
    (([[1], [0]] : List (List ℚ)).map (fun q => q.getD 0 0)).sum = 1 :=
  C2_column_normalization [[20], [5]] [10, 10] (3 / 2) 1 0 [[1], [0]]
    (by norm_num) (by decide) rfl
    (by norm_num [process_numeric, prune, pruneRow, zipWidth, colSum, normRow, mapE, divE])
    (by decide)
    (by norm_num [prune, pruneRow, colSum])

/-- C3 counterexample: on counts `[[1]]` with control `[1]` (ratio `1 ≤ 3/2`,
so the only cell is pruned to `0` and the column sum is `0`), the numeric
pipeline raises `ZeroDivisionError` (modelled as `.error ()`): it does not
complete with a value for the column, contrary to the claim. -/
theorem C3_counterexample_raises :
    process_numeric [[1]] [1] (3 / 2) = .error () ∧
    ∀ out : List (List ℚ), process_numeric [[1]] [1] (3 / 2) ≠ .ok out := by
  have h : process_numeric [[1]] [1] (3 / 2) = .error () := by
    norm_num [process_numeric, prune, pruneRow, zipWidth, colSum, normRow, mapE, divE]
  exact ⟨h, fun out hok => by rw [h] at hok; cases hok⟩

/-- C3 (amended): when some column's sum after pruning is zero (and the
matrix has at least one row), the normalization stage raises a
division-by-zero error — the zero sum is neither silently special-cased nor
survived: the computation does not complete. -/
theorem C3_zero_column_sum_raises (data : List (List ℕ)) (controls : List ℕ) (threshold : ℚ)
    (w j : ℕ)
    (hdne : data ≠ [])
    (hw : ∀ r ∈ data, r.length = w)
    (hlen : controls.length = data.length)
    (hj : j < w)
    (hcs : colSum (prune data controls threshold) j = 0) :
    process_numeric data controls threshold = .error () := by
  have hpne : prune data controls threshold ≠ [] := prune_ne_nil hlen hdne
  have hpw : ∀ r ∈ prune data controls threshold, r.length = w :=
    prune_row_length hw
  have hzw : zipWidth (prune data controls threshold) = w := zipWidth_eq hpne hpw
  cases hres : process_numeric data controls threshold with
  | error e => cases e; rfl
  | ok out =>
    exfalso
    simp only [process_numeric, hzw] at hres
    set S : List ℕ := (List.range w).map (fun j => colSum (prune data controls threshold) j)
      with hS
    have hjs : j < S.length := by simp [hS]; omega
    have hsj : S.getD j 0 = colSum (prune data controls threshold) j := by
      rw [List.getD_eq_getElem _ _ hjs]
      simp [hS]
    have hf := mapE_ok_forall₂ hres
    obtain ⟨r, rest, hcons⟩ := List.exists_cons_of_ne_nil hpne
    have hr : r ∈ prune data controls threshold := by rw [hcons]; exact List.mem_cons_self _ _
    obtain ⟨q, hq, hrq⟩ : ∃ q ∈ out, normRow S r = .ok q := by
      rw [List.forall₂_iff_get] at hf
      obtain ⟨hlen2, hget⟩ := hf
      have h0 : 0 < (prune data controls threshold).length := by
        rw [hcons]; exact Nat.succ_pos _
      have h0' : 0 < out.length := by omega
      have := hget 0 h0 h0'
      refine ⟨out.get ⟨0, h0'⟩, List.get_mem out 0 h0', ?_⟩
      have hr0 : (prune data controls threshold).get ⟨0, h0⟩ = r := by
        simp [hcons]
      rwa [hr0] at this
    have hjr : j < r.length := by rw [hpw r hr]; exact hj
    exact (normRow_ok_getD hrq hjr hjs).1 (hsj ▸ hcs)

/-- Witness for C3 (amended): concrete zero-column-sum input on which the
pipeline errors. -/
theorem C3_zero_column_sum_raises_witness :
    process_numeric [[1]] [1] (3 / 2) = .error () :=
  C3_zero_column_sum_raises [[1]] [1] (3 / 2) 1 0 (by decide) (by decide) rfl (by decide)
    (by norm_num [prune, pruneRow, colSum])

theorem rsplitSpaceAux_length : ∀ {l : List Char} {b a : List Char},
    rsplitSpaceAux l = some (b, a) → b.length + a.length + 1 = l.length := by
  intro l
  induction l with
  | nil => intro b a h; cases h
  | cons c cs ih =>
    intro b a h
    simp only [rsplitSpaceAux] at h
    cases hrec : rsplitSpaceAux cs with
    | some p =>
      rw [hrec] at h
      cases h
      have := ih (b := p.1) (a := p.2) (by rw [hrec])
      simp only [List.length_cons]
      omega
    | none =>
      rw [hrec] at h
      by_cases hc : c = ' '
      · rw [if_pos hc] at h
        cases h
        simp
      · rw [if_neg hc] at h
        cases h

theorem rsplitSpaceAux_append : ∀ {l : List Char} {b a : List Char},
    rsplitSpaceAux l = some (b, a) → b ++ ' ' :: a = l := by
  intro l
  induction l with
  | nil => intro b a h; cases h
  | cons c cs ih =>
    intro b a h
    simp only [rsplitSpaceAux] at h
    cases hrec : rsplitSpaceAux cs with
    | some p =>
      rw [hrec] at h
      cases h
      have := ih (b := p.1) (a := p.2) (by rw [hrec])
      simp [this]
    | none =>
      rw [hrec] at h
      by_cases hc : c = ' '
      · rw [if_pos hc] at h
        cases h
        simp [hc]
      · rw [if_neg hc] at h
        cases h

theorem rsplitSpaceAux_isSome_of_contains : ∀ {l : List Char},
    l.contains ' ' = true → (rsplitSpaceAux l).isSome := by
  intro l
  induction l with
  | nil => intro h; cases h
  | cons c cs ih =>
    intro h
    simp only [rsplitSpaceAux]
    cases hrec : rsplitSpaceAux cs with
    | some p => rfl
    | none =>
      by_cases hc : c = ' '
      · rw [if_pos hc]; rfl
      · rw [if_neg hc]
        exfalso
        simp only [List.contains_cons] at h
        rcases (Bool.or_eq_true _ _).mp h with h1 | h2
        · exact hc (beq_iff_eq.mp h1).symm
        · have := ih h2
          rw [hrec] at this
          cases this

theorem rsplitSpaceAux_no_space_after : ∀ {l : List Char} {b a : List Char},
    rsplitSpaceAux l = some (b, a) → a.contains ' ' = false := by
  intro l
  induction l with
  | nil => intro b a h; cases h
  | cons c cs ih =>
    intro b a h
    simp only [rsplitSpaceAux] at h
    cases hrec : rsplitSpaceAux cs with
    | some p =>
      rw [hrec] at h
      cases h
      exact ih (b := p.1) (a := p.2) (by rw [hrec])
    | none =>
      rw [hrec] at h
      by_cases hc : c = ' '
      · rw [if_pos hc] at h
        cases h
        by_cases hca : cs.contains ' ' = true
        · have := rsplitSpaceAux_isSome_of_contains hca
          rw [hrec] at this
          cases this
        · simpa using hca
      · rw [if_neg hc] at h
        cases h

theorem resolveLoop_exit (check : String → CheckResult) (name0 : String) (rest : List String)
    (h : ¬((check name0).falsy = true ∧ hasSpace name0 = true)) :
    resolveLoop check name0 rest = (check name0, name0, rest, 0) := by
  rw [resolveLoop]
  rw [if_neg h]

theorem resolveLoop_step (check : String → CheckResult) (name0 : String) (rest : List String)
    (b a : String)
    (hf : (check name0).falsy = true) (hs : hasSpace name0 = true)
    (hsp : rsplitSpace name0 = some (b, a)) :
    resolveLoop check name0 rest =
      ((resolveLoop check b (a :: rest)).1, (resolveLoop check b (a :: rest)).2.1,
        (resolveLoop check b (a :: rest)).2.2.1, (resolveLoop check b (a :: rest)).2.2.2 + 1) := by
  rw [resolveLoop]
  rw [if_pos ⟨hf, hs⟩]
  split
  · rename_i b' a' heq
    rw [hsp] at heq
    cases heq
    rfl
  · rename_i heq
    rw [hsp] at heq
    cases heq

theorem rsplitSpace_append {s b a : String} (h : rsplitSpace s = some (b, a)) :
    b ++ " " ++ a = s := by
  simp only [rsplitSpace, Option.map_eq_some'] at h
  obtain ⟨p, hp, heq⟩ := h
  have habs := rsplitSpaceAux_append (l := s.data) (b := p.1) (a := p.2) (by rw [hp])
  cases heq
  apply String.ext
  simp only [String.data_append]
  simpa using habs

theorem rsplitSpace_count {s b a : String} (h : rsplitSpace s = some (b, a)) :
    b.data.count ' ' + 1 ≤ s.data.count ' ' := by
  simp only [rsplitSpace, Option.map_eq_some'] at h
  obtain ⟨p, hp, heq⟩ := h
  have habs := rsplitSpaceAux_append (l := s.data) (b := p.1) (a := p.2) (by rw [hp])
  cases heq
  rw [← habs]
  simp [List.count_append, List.count_cons]

theorem pyJoin_cons_ne (s : String) {l : List String} (h : l ≠ []) :
    pyJoin (s :: l) = s ++ " " ++ pyJoin l := by
  cases l with
  | nil => exact absurd rfl h
  | cons t ts => rfl

/-- Invariant of the shortening loop: joining the remaining name with the
stripped tokens (in order) always reproduces the join of the input state;
in particular, starting from `[sp]`, it reproduces the original label. -/
theorem resolveLoop_join (check : String → CheckResult) :
    ∀ (name0 : String) (rest : List String),
      pyJoin ((resolveLoop check name0 rest).2.1 :: (resolveLoop check name0 rest).2.2.1) =
        pyJoin (name0 :: rest) := by
  intro name0 rest
  induction name0, rest using resolveLoop.induct check with
  | case1 name0 rest taxa hcond b a hsp ih =>
    rw [resolveLoop_step check name0 rest b a hcond.1 hcond.2 hsp]
    simp only
    rw [ih]
    cases rest with
    | nil =>
      show b ++ " " ++ a = name0
      exact rsplitSpace_append hsp
    | cons r rs =>
      rw [pyJoin_cons_ne b (List.cons_ne_nil _ _), pyJoin_cons_ne a (List.cons_ne_nil _ _),
        pyJoin_cons_ne name0 (List.cons_ne_nil _ _)]
      simp only [← rsplitSpace_append hsp, String.append_assoc]
  | case2 name0 rest taxa hcond hsp =>
    rw [resolveLoop_exit check name0 rest (by
      intro hx
      have := rsplitSpaceAux_isSome_of_contains (l := name0.data) hx.2
      simp only [rsplitSpace] at hsp
      cases hy : rsplitSpaceAux name0.data with
      | none => rw [hy] at this; cases this
      | some p => rw [hy] at hsp; cases hsp)]
  | case3 name0 rest taxa hcond =>
    rw [resolveLoop_exit check name0 rest hcond]

/-- C7: when the shortening loop succeeds with stripped tokens left over,
the final name field is the matched taxon's accepted name with the stripped
tokens appended, space-separated; and the remaining query joined with the
stripped tokens (in their stored order) reproduces the original label, so
the tokens are the stripped suffix in original order. -/
theorem C7_suffix_reappended (check : String → CheckResult) (sp : String)
    (nm : String) (id : ℕ) (lvl : String) (ncbi : Option String) (hi : TaxDict)
    (name0 : String) (rest : List String) (n : ℕ)
    (hloop : resolveLoop check sp [] = (.found nm id lvl ncbi hi, name0, rest, n))
    (hrest : rest ≠ []) :
    (speciesRow check sp).getLast? = some (nm ++ " " ++ pyJoin rest) ∧
    pyJoin (name0 :: rest) = sp := by
  constructor
  · simp only [speciesRow, hloop]
    rw [List.getLast?_concat]
    rw [if_neg (by simpa [List.isEmpty_iff] using hrest)]
  · have h := resolveLoop_join check sp []
    rw [hloop] at h
    simpa [pyJoin] using h

/-- Witness for C7: `"Genus species strainX"` fails as a whole and as
`"Genus species"`, but `"Genus"` matches at genus rank with accepted name
`"Genusname"`; the final name re-appends the stripped tokens. -/
theorem C7_suffix_reappended_witness :
    (speciesRow (fun q => (otl_checkname tnrsGenusOnly infoOracle q).1)
        "Genus species strainX").getLast? = some "Genusname species strainX" ∧
    pyJoin ["Genus", "species", "strainX"] = "Genus species strainX" := by
  have h := C7_suffix_reappended
    (fun q => (otl_checkname tnrsGenusOnly infoOracle q).1) "Genus species strainX"
    "Genusname" 42 "genus" none (taxonomy_OTT 42 (infoOracle 42))
    "Genus" ["species", "strainX"] 2
    (by simp [resolveLoop, otl_checkname, tnrsGenusOnly, infoOracle, hasSpace,
      rsplitSpace, rsplitSpaceAux, CheckResult.falsy])
    (by decide)
  simpa [pyJoin] using h

/-- C8: an OTU label with no internal whitespace whose name match yields
zero candidates resolves to the unresolved sentinel: six `'-'` placeholders
followed by the original label verbatim. -/
theorem C8_no_space_unresolved (tnrsOf : String → TnrsBody) (infoOf : ℕ → TaxonInfo)
    (sp : String) (r0 : TnrsResult) (rs : List TnrsResult)
    (hres : (tnrsOf sp).results = r0 :: rs)
    (hmatch : r0.matchList = [])
    (hnosp : hasSpace sp = false) :
    speciesRow (fun q => (otl_checkname tnrsOf infoOf q).1) sp =
      ["-", "-", "-", "-", "-", "-", sp] := by
  have hck : (otl_checkname tnrsOf infoOf sp).1 = .emptyDict := by
    simp [otl_checkname, hres, hmatch]
  have hloop := resolveLoop_exit (fun q => (otl_checkname tnrsOf infoOf q).1) sp []
    (by
      rintro ⟨-, hs⟩
      rw [hnosp] at hs
      cases hs)
  simp only [speciesRow, hloop, hck]

/-- Witness for C8: the single-token label `"unknownthing"` with a
zero-match response resolves to the sentinel row echoing the label. -/
theorem C8_no_space_unresolved_witness :
    speciesRow (fun q => (otl_checkname (fun _ => ⟨[⟨[]⟩]⟩) infoOracle q).1) "unknownthing" =
      ["-", "-", "-", "-", "-", "-", "unknownthing"] :=
  C8_no_space_unresolved (fun _ => ⟨[⟨[]⟩]⟩) infoOracle "unknownthing" ⟨[]⟩ []
    rfl rfl (by decide)

/-- C10 counterexample: on the label `"a  b  c"` (three whitespace-delimited
tokens, four spaces) with every lookup failing, the loop executes 4
iterations, exceeding the token count 3: the claimed bound by token count
is false.  (Each iteration removes the last space and what follows it, so
the true bound is the number of space characters.) -/
theorem C10_counterexample :
    (resolveLoop (fun q => (otl_checkname emptyTnrs infoOracle q).1) "a  b  c" []).2.2.2 = 4 ∧
    (pySplit "a  b  c").length = 3 ∧
    ¬((resolveLoop (fun q => (otl_checkname emptyTnrs infoOracle q).1) "a  b  c" []).2.2.2 ≤
        (pySplit "a  b  c").length) := by
  have h1 : (resolveLoop (fun q => (otl_checkname emptyTnrs infoOracle q).1)
      "a  b  c" []).2.2.2 = 4 := by
    simp [resolveLoop, otl_checkname, emptyTnrs, hasSpace, rsplitSpace, rsplitSpaceAux,
      CheckResult.falsy]
  have h2 : (pySplit "a  b  c").length = 3 := by decide
  exact ⟨h1, h2, by rw [h1, h2]; decide⟩

/-- C10 (amended): the shortening loop always terminates (it is a total
function of the oracle), and the number of loop iterations is at most the
number of space characters in the label — each failed attempt removes the
last space together with everything after it. -/
theorem C10_iterations_bounded (check : String → CheckResult) (name0 : String)
    (rest : List String) :
    (resolveLoop check name0 rest).2.2.2 ≤ name0.data.count ' ' := by
  induction name0, rest using resolveLoop.induct check with
  | case1 name0 rest taxa hcond b a hsp ih =>
    rw [resolveLoop_step check name0 rest b a hcond.1 hcond.2 hsp]
    have hc := rsplitSpace_count hsp
    simp only
    omega
  | case2 name0 rest taxa hcond hsp =>
    rw [resolveLoop_exit check name0 rest (fun hx => by
      have := rsplitSpaceAux_isSome_of_contains (l := name0.data) hx.2
      simp only [rsplitSpace] at hsp
      cases hy : rsplitSpaceAux name0.data with
      | none => rw [hy] at this; cases this
      | some p => rw [hy] at hsp; cases hsp)]
    simp
  | case3 name0 rest taxa hcond =>
    rw [resolveLoop_exit check name0 rest hcond]
    simp

/-- C5 counterexample: a rank-mismatch on the full label does NOT abandon
resolution for the OTU: `otl_checkname` returns `None` with the warning,
but the shortening loop continues, `"alpha"` resolves at genus rank, and
the OTU gets a resolved row (with the stripped token re-appended), not the
unresolved placeholder row. -/
theorem C5_counterexample :
    (otl_checkname tnrsC5 infoOracle "alpha beta").1 = .pyNone ∧
    (otl_checkname tnrsC5 infoOracle "alpha beta").2 =
      ["alpha beta: found in ott, but not as genus or species"] ∧
    speciesRow (fun q => (otl_checkname tnrsC5 infoOracle q).1) "alpha beta" =
      ["-", "-", "-", "-", "-", "-", "Alphagenus beta"] ∧
    speciesRow (fun q => (otl_checkname tnrsC5 infoOracle q).1) "alpha beta" ≠
      ["-", "-", "-", "-", "-", "-", "alpha beta"] := by
  refine ⟨by simp [otl_checkname, tnrsC5], by simp [otl_checkname, tnrsC5], ?_, ?_⟩
  · simp [speciesRow, resolveLoop, otl_checkname, tnrsC5, infoOracle, hasSpace,
      rsplitSpace, rsplitSpaceAux, CheckResult.falsy, taxonomy_OTT, rankMap, SIX_RANKS,
      pyJoin]
  · intro h
    have h7 := congrArg (fun l => List.getD l 6 "") h
    simp [speciesRow, resolveLoop, otl_checkname, tnrsC5, infoOracle, hasSpace,
      rsplitSpace, rsplitSpaceAux, CheckResult.falsy, taxonomy_OTT, rankMap, SIX_RANKS,
      pyJoin] at h7

/-- C5 (amended): a match candidate at a rank other than genus or species
makes `otl_checkname` emit the warning and return Python `None` — a failure
value distinct from the zero-matches empty dict; that resolution ATTEMPT is
abandoned, the shortening loop continues, and only when no shorter prefix
remains (e.g. a label with no internal whitespace) does the OTU fall back
to the unresolved placeholder row — without crashing. -/
theorem C5_rank_mismatch (tnrsOf : String → TnrsBody) (infoOf : ℕ → TaxonInfo)
    (query : String) (r0 : TnrsResult) (rs : List TnrsResult) (m0 : TnrsMatch)
    (ms : List TnrsMatch)
    (hres : (tnrsOf query).results = r0 :: rs)
    (hm : r0.matchList = m0 :: ms)
    (hr1 : m0.taxon.rank ≠ "species") (hr2 : m0.taxon.rank ≠ "genus") :
    otl_checkname tnrsOf infoOf query =
      (.pyNone, [query ++ ": found in ott, but not as genus or species"]) ∧
    (CheckResult.pyNone ≠ .emptyDict) ∧
    (hasSpace query = false →
      speciesRow (fun q => (otl_checkname tnrsOf infoOf q).1) query =
        ["-", "-", "-", "-", "-", "-", query]) := by
  have hck : otl_checkname tnrsOf infoOf query =
      (.pyNone, [query ++ ": found in ott, but not as genus or species"]) := by
    simp [otl_checkname, hres, hm, hr1, hr2]
  refine ⟨hck, fun h => CheckResult.noConfusion h, fun hnosp => ?_⟩
  have hloop := resolveLoop_exit (fun q => (otl_checkname tnrsOf infoOf q).1) query []
    (by
      rintro ⟨-, hs⟩
      rw [hnosp] at hs
      cases hs)
  simp only [speciesRow, hloop, hck]

/-- Witness for C5 (amended): the single-token label `"betaceae"` matched
only at family rank gets the warning, the `None` failure value, and the
placeholder row. -/
theorem C5_rank_mismatch_witness :
    otl_checkname tnrsFamilyOnly infoOracle "betaceae" =
      (.pyNone, ["betaceae: found in ott, but not as genus or species"]) ∧
    speciesRow (fun q => (otl_checkname tnrsFamilyOnly infoOracle q).1) "betaceae" =
      ["-", "-", "-", "-", "-", "-", "betaceae"] := by
  have h := C5_rank_mismatch tnrsFamilyOnly infoOracle "betaceae"
    ⟨[⟨⟨"Betaceae", 7, "family", []⟩⟩]⟩ [] ⟨⟨"Betaceae", 7, "family", []⟩⟩ []
    (by simp [tnrsFamilyOnly]) rfl (by decide) (by decide)
  exact ⟨h.1, h.2.2 (by decide)⟩

/-- C4: on an HTTP 400 from the taxon-detail endpoint, `otl_taxon` does not
retry (the remaining oracle is irrelevant), writes the error message and
`'skipping'` to the diagnostic stream, and returns `None`; but the caller
`taxonomy_OTT` immediately evaluates `res.json()` on that `None` and raises
`AttributeError`, which nothing in per-OTU resolution catches — the OTU
does NOT proceed to the unresolved outcome. -/
theorem C4_client_error_no_retry_but_crashes (b : TaxonInfo) (msg : String)
    (rest : List TaxonNet) (log : List String) (oid : ℕ) :
    otl_taxon (.resp 400 b msg :: rest) log = some (none, log ++ [msg, "skipping"]) ∧
    taxonomy_OTT_net oid (.resp 400 b msg :: rest) =
      some (.error "AttributeError: NoneType has no attribute json", [msg, "skipping"]) := by
  constructor
  · simp [otl_taxon]
  · simp [taxonomy_OTT_net, otl_taxon]

/-- C9: the fallback core-genus name (first whitespace token of the
detail's unique name) is derived exactly when the resolved rank is
species/subspecies AND the lineage has no genus-rank entry; in that case
the core genus id is set to the `nan` "undefined" marker.  When a genus
ancestor exists, `cg` is the lineage's genus name and the id its OTT id;
when the rank is not species/subspecies, no core genus id is set and `cg`
is never the fallback token (it is absent or the empty string). -/
theorem C9_core_genus_fallback (oid : ℕ) (res : TaxonInfo)
    (hu : pySplit res.unique_name ≠ []) :
    ((res.rank = "species" ∨ res.rank = "subspecies") →
      ((res.lineage.filter (fun e => e.rank = "genus")) = [] →
        (taxonomy_OTT oid res).cg = some ((pySplit res.unique_name).headD "") ∧
        (taxonomy_OTT oid res).tax_cg_ott_id = some .nan) ∧
      (∀ g, (res.lineage.filter (fun e => e.rank = "genus")).head? = some g →
        (taxonomy_OTT oid res).cg = rankMap res.lineage "genus" ∧
        (taxonomy_OTT oid res).tax_cg_ott_id = some (.ott g.ott_id))) ∧
    (¬(res.rank = "species" ∨ res.rank = "subspecies") →
      (taxonomy_OTT oid res).tax_cg_ott_id = none ∧
      (taxonomy_OTT oid res).cg ≠ some ((pySplit res.unique_name).headD "")) := by
  have htok : (pySplit res.unique_name).headD "" ≠ "" := by
    have hmem : (pySplit res.unique_name).headD "" ∈ pySplit res.unique_name := by
      cases hl : pySplit res.unique_name with
      | nil => exact absurd hl hu
      | cons x xs => exact List.mem_cons_self _ _
    have h2 : ∀ x ∈ pySplit res.unique_name, x ≠ "" := by
      intro x hx
      simp only [pySplit, List.mem_filter] at hx
      simpa using hx.2
    exact h2 _ hmem
  constructor
  · intro hss
    constructor
    · intro hgen
      simp only [taxonomy_OTT, hgen, List.head?_nil]
      rw [if_pos hss, if_pos hss, if_pos hss]
      exact ⟨rfl, rfl⟩
    · intro g hg
      simp only [taxonomy_OTT, hg]
      rw [if_pos hss, if_pos hss]
      exact ⟨rfl, rfl⟩
  · intro hns
    simp only [taxonomy_OTT]
    rw [if_neg hns, if_neg hns]
    refine ⟨rfl, ?_⟩
    by_cases hg : res.rank = "genus" ∨ res.rank = "subgenus"
    · rw [if_pos hg]
      intro h
      cases h
    · rw [if_neg hg]
      intro h
      have : "" = (pySplit res.unique_name).headD "" := by injection h
      exact htok this.symm

/-- Witness for C9: a species-rank detail (`"Homo sapiens"`) with no genus
ancestor in its lineage gets the fallback core genus `"Homo"` and the `nan`
core genus id. -/
theorem C9_core_genus_fallback_witness :
    (taxonomy_OTT 5 infoNoGenus).cg = some "Homo" ∧
    (taxonomy_OTT 5 infoNoGenus).tax_cg_ott_id = some .nan := by
  have h := (C9_core_genus_fallback 5 infoNoGenus (by decide)).1
    (Or.inl rfl) |>.1 rfl
  simpa using h

theorem range_map_getD (d : α) :
    ∀ l : List α, (List.range l.length).map (fun i => l.getD i d) = l := by
  intro l
  induction l with
  | nil => rfl
  | cons a l ih =>
    show (List.range (l.length + 1)).map (fun i => (a :: l).getD i d) = a :: l
    rw [List.range_succ_eq_map, List.map_cons, List.map_map]
    have h2 : ((fun i => (a :: l).getD i d) ∘ Nat.succ) = fun i => l.getD i d := rfl
    rw [h2, ih]
    rfl

theorem filter_range_map_getD (d : α) :
    ∀ (l : List α) (c : ℕ),
      ((List.range l.length).filter (fun i => i ≠ c)).map (fun i => l.getD i d) =
        l.eraseIdx c := by
  intro l
  induction l with
  | nil => intro c; rfl
  | cons a l ih =>
    intro c
    show ((List.range (l.length + 1)).filter (fun i => i ≠ c)).map
        (fun i => (a :: l).getD i d) = (a :: l).eraseIdx c
    rw [List.range_succ_eq_map]
    cases c with
    | zero =>
      rw [List.filter_cons_of_neg (by simp)]
      rw [List.filter_map]
      have h1 : (List.range l.length).filter ((fun i => decide (i ≠ 0)) ∘ Nat.succ) =
          List.range l.length := by
        apply List.filter_eq_self.mpr
        intro x _
        simp
      rw [h1, List.map_map]
      have h2 : ((fun i => (a :: l).getD i d) ∘ Nat.succ) = fun i => l.getD i d := rfl
      rw [h2]
      exact range_map_getD d l
    | succ c' =>
      rw [List.filter_cons_of_pos (by simp)]
      rw [List.filter_map, List.map_cons, List.map_map]
      have h1 : (List.range l.length).filter ((fun i => decide (i ≠ c' + 1)) ∘ Nat.succ) =
          (List.range l.length).filter (fun i => decide (i ≠ c')) := by
        apply List.filter_congr
        intro x _
        simp
      rw [h1]
      have h2 : ((fun i => (a :: l).getD i d) ∘ Nat.succ) = fun i => l.getD i d := rfl
      rw [h2]
      show a :: ((List.range l.length).filter (fun i => i ≠ c')).map (fun i => l.getD i d) =
        a :: l.eraseIdx c'
      rw [ih c']

theorem selectRow_eq (row : List ℕ) (ccol : ℕ) (hc : 1 ≤ ccol) :
    selectRow row ccol = (row.drop 1).eraseIdx (ccol - 1) := by
  cases row with
  | nil => rfl
  | cons a tail =>
    obtain ⟨c', rfl⟩ : ∃ c', ccol = c' + 1 := ⟨ccol - 1, by omega⟩
    show (((List.range (tail.length + 1)).drop 1).filter (fun i => i ≠ c' + 1)).map
        (fun i => (a :: tail).getD i 0) = tail.eraseIdx c'
    rw [List.range_succ_eq_map, List.drop_succ_cons, List.drop_zero]
    rw [List.filter_map, List.map_map]
    have h1 : (List.range tail.length).filter ((fun i => decide (i ≠ c' + 1)) ∘ Nat.succ) =
        (List.range tail.length).filter (fun i => decide (i ≠ c')) := by
      apply List.filter_congr
      intro x _
      simp
    rw [h1]
    have h2 : ((fun i => (a :: tail).getD i 0) ∘ Nat.succ) = fun i => tail.getD i 0 := rfl
    rw [h2]
    exact filter_range_map_getD 0 tail c'

theorem mem_zip_index {l1 : List α} {l2 : List β} {p : α × β} (h : p ∈ l1.zip l2) :
    ∃ i, ∃ h1 : i < l1.length, ∃ h2 : i < l2.length, p = (l1[i], l2[i]) := by
  obtain ⟨⟨n, hn⟩, hget⟩ := List.mem_iff_get.mp h
  simp only [List.get_eq_getElem, List.getElem_zip] at hget
  rw [List.length_zip] at hn
  exact ⟨n, by omega, by omega, hget.symm⟩

theorem speciesRow_shape (check : String → CheckResult) (sp : String) :
    ∃ f1 f2 f3 f4 f5 f6 nm, speciesRow check sp = [f1, f2, f3, f4, f5, f6, nm] := by
  rw [speciesRow]
  cases hloop : resolveLoop check sp [] with
  | mk taxa r =>
    cases taxa with
    | found nm id lvl ncbi hi =>
      simp only [SIX_RANKS, List.map_cons, List.map_nil]
      exact ⟨_, _, _, _, _, _, _, rfl⟩
    | pyNone => exact ⟨_, _, _, _, _, _, _, rfl⟩
    | emptyDict => exact ⟨_, _, _, _, _, _, _, rfl⟩

theorem normRow_ok_length {sums row : List ℕ} {q : List ℚ}
    (h : normRow sums row = .ok q) : q.length = min row.length sums.length := by
  have hl := (List.forall₂_iff_get.mp (mapE_ok_forall₂ h)).1
  rw [List.length_zip] at hl
  exact hl.symm

/-- C6: every data row `write_data` emits is the 7 string fields of some
input OTU (six lineage fields plus the resolved name) followed by exactly
that OTU's per-sample proportion vector, whose entries correspond
one-to-one, in original order, to the original sample columns — all
columns except the first (OTU) column and the control column, wherever the
control column sits (`selectRow row ccol = (row.drop 1).eraseIdx
(ccol - 1)`). -/
theorem C6_output_row_structure
    (check : String → CheckResult) (labels : List String)
    (rows : List (List ℕ)) (controls : List ℕ) (threshold : ℚ)
    (ccol w : ℕ) (out : List (List ℚ))
    (hc : 1 ≤ ccol)
    (hw : ∀ r ∈ rows.map (fun row => selectRow row ccol), r.length = w)
    (hlen : controls.length = rows.length)
    (hok : process_numeric (rows.map (fun row => selectRow row ccol)) controls threshold
      = .ok out)
    (hlab : labels.length = rows.length) :
    (∀ row : List ℕ, selectRow row ccol = (row.drop 1).eraseIdx (ccol - 1)) ∧
    (∀ p ∈ write_rows (labels.map (speciesRow check)) out,
      ∃ i : ℕ, ∃ hi : i < labels.length,
        p.1 = speciesRow check labels[i] ∧
        (∃ f1 f2 f3 f4 f5 f6 nm, p.1 = [f1, f2, f3, f4, f5, f6, nm]) ∧
        ∃ hir : i < rows.length, ∃ ho : i < out.length,
          p.2 = out[i] ∧ p.2.length = (selectRow rows[i] ccol).length) := by
  refine ⟨fun row => selectRow_eq row ccol hc, ?_⟩
  intro p hp
  have hperm := List.mergeSort_perm ((labels.map (speciesRow check)).zip out) rowLe
  have hmem : p ∈ (labels.map (speciesRow check)).zip out := hperm.mem_iff.mp hp
  obtain ⟨i, h1, h2, hpair⟩ := mem_zip_index hmem
  have hilab : i < labels.length := by simpa using h1
  simp only [process_numeric] at hok
  have hf := mapE_ok_forall₂ hok
  obtain ⟨hflen, hfget⟩ := List.forall₂_iff_get.mp hf
  have hpl : (prune (rows.map (fun row => selectRow row ccol)) controls threshold).length
      = rows.length := by
    simp [prune, List.length_zip, hlen]
  have hirows : i < rows.length := by omega
  have hip : i < (prune (rows.map (fun row => selectRow row ccol)) controls threshold).length :=
    by omega
  have hpne : prune (rows.map (fun row => selectRow row ccol)) controls threshold ≠ [] := by
    intro hnil
    rw [hnil] at hpl
    simp at hpl
    omega
  have hzw : zipWidth (prune (rows.map (fun row => selectRow row ccol)) controls threshold)
      = w := zipWidth_eq hpne (prune_row_length hw)
  have hnr := hfget i hip h2
  simp only [List.get_eq_getElem] at hnr
  have hq := normRow_ok_length hnr
  have hprw : (prune (rows.map (fun row => selectRow row ccol)) controls
      threshold)[i].length = w := by
    apply prune_row_length hw
    exact List.getElem_mem _
  have hsums : ((List.range (zipWidth (prune (rows.map (fun row => selectRow row ccol))
      controls threshold))).map (fun j => colSum (prune (rows.map
      (fun row => selectRow row ccol)) controls threshold) j)).length = w := by
    rw [List.length_map, List.length_range, hzw]
  rw [hprw, hsums, min_self] at hq
  have hsel : (selectRow rows[i] ccol).length = w := by
    apply hw
    exact List.mem_map_of_mem _ (List.getElem_mem _)
  refine ⟨i, hilab, ?_, ?_, hirows, h2, ?_, ?_⟩
  · rw [hpair]
    simp
  · rw [hpair]
    simp only [List.getElem_map]
    exact speciesRow_shape check labels[i]
  · rw [hpair]
  · rw [hpair]
    simp only
    rw [hq, hsel]

/-- Witness for C6: the spec's end-to-end example with the control column
in position 1 (`[OTU, control, siteA]` rows `[0,10,20]` and `[0,10,5]`):
the selected sample columns are exactly `[siteA]` and every output row is
seven string fields followed by that column's proportion. -/
theorem C6_output_row_structure_witness :
    selectRow [0, 10, 20] 1 = [20] ∧
    ∀ p ∈ write_rows (["sp1", "sp2"].map (speciesRow (fun q =>
        (otl_checkname emptyTnrs infoOracle q).1))) [[1], [0]],
      ∃ f1 f2 f3 f4 f5 f6 nm, p.1 = [f1, f2, f3, f4, f5, f6, nm] := by
  have h := C6_output_row_structure (fun q => (otl_checkname emptyTnrs infoOracle q).1)
    ["sp1", "sp2"] [[0, 10, 20], [0, 10, 5]] [10, 10] (3 / 2) 1 1 [[1], [0]]
    (by decide) (by decide) rfl
    (by
      have hsel : ([[0, 10, 20], [0, 10, 5]] : List (List ℕ)).map
          (fun row => selectRow row 1) = [[20], [5]] := by decide
      rw [hsel]
      norm_num [process_numeric, prune, pruneRow, zipWidth, colSum, normRow, mapE, divE])
    rfl
  refine ⟨?_, fun p hp => ?_⟩
  · have h1 := h.1 [0, 10, 20]
    simpa using h1
  · obtain ⟨i, hi, _, hshape, _⟩ := h.2 p hp
    exact hshape

end ProcessOTU
